import Mathlib

/-!
# Verification of the `token-handler-js-assistant` OAuth Agent client

Shallow embedding of `src/index.ts` (class `OAuthAgentClient`) and
`src/types.ts`.  Browser/platform primitives that the source calls
(`URL.searchParams`, `URLSearchParams` serialization, `window.fetch`
responses) are modelled explicitly:

* a page URL's query string is modelled by the list of its query-parameter
  entries (key/value pairs), which is exactly what `url.searchParams`
  iterates over;
* an HTTP response is modelled by its status, status text, `content-type`
  header and JSON body (`jsonBody` is the value produced by
  `response.json()` when the source calls it);
* JSON values are modelled by the inductive `Json`; a TypeScript property
  access `obj.field` (which yields `undefined` when the field is missing)
  is modelled by `Json.getField`, returning an `Option Json`;
* the `application/x-www-form-urlencoded` serializer used by
  `URLSearchParams` (and its standard parser, for the round-trip
  property) are modelled byte-faithfully, including UTF-8
  percent-encoding and the `' ' ↦ '+'` rule.
-/

namespace TokenHandler

/-- JSON values, as exchanged with the OAuth Agent. -/
inductive Json where
  | null : Json
  | bool (b : Bool) : Json
  | num (n : Int) : Json
  | str (s : String) : Json
  | arr (elems : List Json) : Json
  | obj (fields : List (String × Json)) : Json

/-- TypeScript property access `j.k`: `some` the field's value when `j` is an
object containing key `k`, `none` (JavaScript `undefined`) otherwise. -/
def Json.getField : Json → String → Option Json
  | .obj fields, k => (fields.find? (fun f => f.1 == k)).map (fun f => f.2)
  | _, _ => none

/-- The `Configuration` interface of `src/index.ts`. -/
structure Configuration where
  oauthAgentBaseUrl : String

/-- The state of an `OAuthAgentClient` instance: its single private field. -/
structure OAuthAgentClient where
  oauthAgentBaseUrl : String

/-- JavaScript `String.prototype.endsWith` restricted to a suffix argument:
`s.endsWith(suffix)`. -/
def jsEndsWith (s suffix : String) : Bool :=
  suffix.data.isSuffixOf s.data

/-- The constructor of `OAuthAgentClient`:
`config.oauthAgentBaseUrl.endsWith('/') ? config.oauthAgentBaseUrl : config.oauthAgentBaseUrl + '/'`. -/
def OAuthAgentClient.construct (config : Configuration) : OAuthAgentClient :=
  { oauthAgentBaseUrl :=
      if jsEndsWith config.oauthAgentBaseUrl "/" then config.oauthAgentBaseUrl
      else config.oauthAgentBaseUrl ++ "/" }

/-- An HTTP request as assembled by the private `fetch` method. -/
structure Request where
  method : String
  url : String
  headers : List (String × String)
  body : Option String

/-- The headers built by the private `fetch` method: `accept` and
`token-handler-version` always, `content-type` for the two body-carrying
paths. -/
def fetchHeaders (path : String) : List (String × String) :=
  [("accept", "application/json"), ("token-handler-version", "1")] ++
    (if path == "login/start" || path == "login/end" then
      [("content-type", "application/x-www-form-urlencoded")]
    else [])

/-- The request assembled by the private `fetch` method for a given method,
relative path and optional body: the URL is the stored (already normalized)
base URL concatenated with the path, with no further normalization. -/
def OAuthAgentClient.fetchRequest (c : OAuthAgentClient) (method path : String)
    (content : Option String) : Request :=
  { method := method
    url := c.oauthAgentBaseUrl ++ path
    headers := fetchHeaders path
    body := content }

/-- An HTTP response from the OAuth Agent, as seen by the private `fetch`
method.  `jsonBody` is the JSON value produced by `response.json()` when the
source calls it (it is never consulted on the non-JSON error path, which
never parses the body). -/
structure HttpResponse where
  status : Nat
  statusText : String
  contentTypeHeader : Option String
  jsonBody : Json

/-- WHATWG `Response.ok`: status in the inclusive range 200–299. -/
def HttpResponse.ok (r : HttpResponse) : Bool :=
  decide (200 ≤ r.status) && decide (r.status ≤ 299)

/-- The `OAuthAgentRemoteError` of `src/types.ts`.  `code` and `details` are
`Option Json` because the source passes raw property accesses
(`errorResponse.error_code`, `errorResponse.detailed_error`), which are
`undefined` when the field is missing. -/
structure OAuthAgentRemoteError where
  status : Nat
  code : Option Json
  details : Option Json

/-- The response-handling tail of the private `fetch` method: on 2xx return
the parsed JSON body; otherwise throw an `OAuthAgentRemoteError` built from
the JSON error payload when the `content-type` header is exactly
`application/json`, and from `'server_error'` and the status text
otherwise. -/
def fetchResult (r : HttpResponse) : Except OAuthAgentRemoteError Json :=
  if r.ok then .ok r.jsonBody
  else if r.contentTypeHeader == some "application/json" then
    .error { status := r.status
             code := r.jsonBody.getField "error_code"
             details := r.jsonBody.getField "detailed_error" }
  else
    .error { status := r.status
             code := some (.str "server_error")
             details := some (.str r.statusText) }

/-- The `SessionResponse` object literal built by `session` and `endLogin`.
Fields hold the raw property accesses of the wire payload; `csrfToken` is
declared optional in `src/types.ts` and never set by the implementation. -/
structure SessionResponse where
  isLoggedIn : Option Json
  csrfToken : Option Json
  idTokenClaims : Option Json
  accessTokenExpiresIn : Option Json

/-- The `RefreshResponse` object literal built by `refresh`. -/
structure RefreshResponse where
  accessTokenExpiresIn : Option Json

/-- The `LogoutResponse` object literal built by `logout`. -/
structure LogoutResponse where
  logoutUrl : Option Json

/-- The `StartLoginResponse` object literal built by `startLogin`. -/
structure StartLoginResponse where
  authorizationUrl : Option Json

/-- The field mapping shared by `session` and `endLogin`:
`{isLoggedIn: p.is_logged_in, idTokenClaims: p.id_token_claims,
accessTokenExpiresIn: p.access_token_expires_in}`. -/
def sessionResponseOfJson (p : Json) : SessionResponse :=
  { isLoggedIn := p.getField "is_logged_in"
    csrfToken := none
    idTokenClaims := p.getField "id_token_claims"
    accessTokenExpiresIn := p.getField "access_token_expires_in" }

/-- The field mapping of `refresh`:
`{accessTokenExpiresIn: p.access_token_expires_in}`. -/
def refreshResponseOfJson (p : Json) : RefreshResponse :=
  { accessTokenExpiresIn := p.getField "access_token_expires_in" }

/-- The field mapping of `logout`: `{logoutUrl: p.logout_url}`. -/
def logoutResponseOfJson (p : Json) : LogoutResponse :=
  { logoutUrl := p.getField "logout_url" }

/-- The field mapping of `startLogin`:
`{authorizationUrl: p.authorization_url}`. -/
def startLoginResponseOfJson (p : Json) : StartLoginResponse :=
  { authorizationUrl := p.getField "authorization_url" }

/-- `session`'s handling of the HTTP response of its `GET session` call. -/
def sessionResult (r : HttpResponse) : Except OAuthAgentRemoteError SessionResponse :=
  (fetchResult r).map sessionResponseOfJson

/-- `endLogin`'s handling of the HTTP response of its `POST login/end` call. -/
def endLoginResult (r : HttpResponse) : Except OAuthAgentRemoteError SessionResponse :=
  (fetchResult r).map sessionResponseOfJson

/-- `refresh`'s handling of the HTTP response of its `POST refresh` call. -/
def refreshResult (r : HttpResponse) : Except OAuthAgentRemoteError RefreshResponse :=
  (fetchResult r).map refreshResponseOfJson

/-- `logout`'s handling of the HTTP response of its `POST logout` call. -/
def logoutResult (r : HttpResponse) : Except OAuthAgentRemoteError LogoutResponse :=
  (fetchResult r).map logoutResponseOfJson

/-- `startLogin`'s handling of the HTTP response of its `POST login/start`
call. -/
def startLoginResult (r : HttpResponse) : Except OAuthAgentRemoteError StartLoginResponse :=
  (fetchResult r).map startLoginResponseOfJson

/-! ## Page-load classification (`onPageLoad` / `isOAuthResponse`) -/

/-- The entries of `url.searchParams`: key/value pairs, in order, possibly
with repeated keys. -/
abbrev QueryParams := List (String × String)

/-- `URLSearchParams.has(key)`. -/
def hasParam (params : QueryParams) (key : String) : Bool :=
  params.any (fun p => p.1 == key)

/-- The private `isOAuthResponse` predicate, verbatim:
`(has state && has code) || (has response && Array.from(params).length == 1)
|| (has error && has state)`. -/
def isOAuthResponse (params : QueryParams) : Bool :=
  let isPlainOAuthResponse := hasParam params "state" && hasParam params "code"
  let isJarmOAuthResponse := hasParam params "response" && params.length == 1
  let isErrorOAuthResponse := hasParam params "error" && hasParam params "state"
  isPlainOAuthResponse || isJarmOAuthResponse || isErrorOAuthResponse

/-- The two delegation targets of `onPageLoad`. -/
inductive PageLoadTarget where
  | endLoginPath : PageLoadTarget
  | sessionPath : PageLoadTarget
deriving DecidableEq

/-- The branch taken by `onPageLoad` for a page URL with the given query
parameters: `endLogin` when `isOAuthResponse`, `session()` otherwise. -/
def onPageLoadTarget (params : QueryParams) : PageLoadTarget :=
  if isOAuthResponse params then .endLoginPath else .sessionPath

/-! ## The `application/x-www-form-urlencoded` serializer and parser

These model the platform primitives used by the source: `startLogin` builds a
`URLSearchParams` from its extra-parameters object and `window.fetch`
serializes it with the standard urlencoded serializer; the round-trip
property of the spec compares that body with what the standard urlencoded
parser recovers from it. -/

/-- UTF-8 encoding of a Unicode scalar value (a `Char`), as a list of
bytes. -/
def utf8Encode (c : Char) : List Nat :=
  if c.toNat < 0x80 then [c.toNat]
  else if c.toNat < 0x800 then [0xC0 + c.toNat / 64, 0x80 + c.toNat % 64]
  else if c.toNat < 0x10000 then
    [0xE0 + c.toNat / 4096, 0x80 + c.toNat / 64 % 64, 0x80 + c.toNat % 64]
  else
    [0xF0 + c.toNat / 262144, 0x80 + c.toNat / 4096 % 64,
     0x80 + c.toNat / 64 % 64, 0x80 + c.toNat % 64]

/-- UTF-8 decoding of a byte list back into characters, fuelled by the
maximum number of characters to produce (total: truncated or malformed
suffixes are dropped; on round-trip inputs they never occur). -/
def utf8DecodeAux : Nat → List Nat → List Char
  | _, [] => []
  | 0, _ :: _ => []
  | fuel + 1, b :: bs =>
    if b < 0x80 then Char.ofNat b :: utf8DecodeAux fuel bs
    else if b < 0xE0 then
      match bs with
      | [] => []
      | b1 :: bs1 => Char.ofNat ((b - 0xC0) * 64 + (b1 - 0x80)) :: utf8DecodeAux fuel bs1
    else if b < 0xF0 then
      match bs with
      | b1 :: b2 :: bs2 =>
          Char.ofNat ((b - 0xE0) * 4096 + (b1 - 0x80) * 64 + (b2 - 0x80)) :: utf8DecodeAux fuel bs2
      | _ => []
    else
      match bs with
      | b1 :: b2 :: b3 :: bs3 =>
          Char.ofNat ((b - 0xF0) * 262144 + (b1 - 0x80) * 4096 + (b2 - 0x80) * 64 + (b3 - 0x80))
            :: utf8DecodeAux fuel bs3
      | _ => []

/-- UTF-8 decoding of a byte list: each decoded character consumes at least
one byte, so the list's length is enough fuel. -/
def utf8Decode (l : List Nat) : List Char :=
  utf8DecodeAux l.length l

/-- Uppercase hexadecimal digit for `n < 16`. -/
def hexDigit (n : Nat) : Char :=
  "0123456789ABCDEF".data.getD n '0'

/-- Value of a hexadecimal digit character, `none` for non-hex characters. -/
def hexVal (c : Char) : Option Nat :=
  if c.isDigit then some (c.toNat - 48)
  else if 'a' ≤ c ∧ c ≤ 'f' then some (c.toNat - 87)
  else if 'A' ≤ c ∧ c ≤ 'F' then some (c.toNat - 55)
  else none

/-- Characters the urlencoded serializer leaves unescaped: ASCII
alphanumerics and `*`, `-`, `.`, `_`. -/
def isFormSafe (c : Char) : Bool :=
  c.isAlphanum || c == '*' || c == '-' || c == '.' || c == '_'

/-- Percent-encoding of one byte: `%XY` with uppercase hex digits. -/
def percentEncodeByte (b : Nat) : List Char :=
  ['%', hexDigit (b / 16), hexDigit (b % 16)]

/-- Urlencoded serialization of one character: space becomes `+`, safe
characters stay, everything else is percent-encoded per UTF-8 byte. -/
def encodeChar (c : Char) : List Char :=
  if c = ' ' then ['+']
  else if isFormSafe c then [c]
  else (utf8Encode c).flatMap percentEncodeByte

/-- Urlencoded serialization of a string. -/
def serializeStr (s : String) : List Char :=
  s.data.flatMap encodeChar

/-- Urlencoded serialization of one key/value pair: `key=value`. -/
def serializePair (p : String × String) : List Char :=
  serializeStr p.1 ++ '=' :: serializeStr p.2

/-- Join pieces with a separator character (JavaScript `Array.join` /
`URLSearchParams` serialization between pairs). -/
def joinSep (sep : Char) : List (List Char) → List Char
  | [] => []
  | [p] => p
  | p :: q :: ps => p ++ sep :: joinSep sep (q :: ps)

/-- Serialization of a `URLSearchParams` entry list, as produced when
`window.fetch` sends it as a request body: pairs joined with `&`. -/
def serializeForm (ps : List (String × String)) : String :=
  String.mk (joinSep '&' (ps.map serializePair))

/-- `toUrlSearchParams` of `src/index.ts`: an absent object yields an empty
`URLSearchParams`, otherwise the object's entries. -/
def toUrlSearchParams (data : Option (List (String × String))) : List (String × String) :=
  match data with
  | none => []
  | some d => d

/-- Split a character list at every occurrence of a separator. -/
def splitSep (sep : Char) : List Char → List (List Char)
  | [] => [[]]
  | c :: cs =>
    if c = sep then [] :: splitSep sep cs
    else
      match splitSep sep cs with
      | [] => [[c]]
      | p :: ps => (c :: p) :: ps

/-- Urlencoded decoding of a piece: interpret `+` as space and `%XY` as a
byte, then decode the byte sequence as UTF-8. -/
def charsToBytes : List Char → List Nat
  | [] => []
  | c :: rest =>
    if c = '+' then 32 :: charsToBytes rest
    else if c = '%' then
      match rest with
      | h1 :: h2 :: rest2 =>
        match hexVal h1, hexVal h2 with
        | some a, some b => (a * 16 + b) :: charsToBytes rest2
        | _, _ => utf8Encode '%' ++ charsToBytes (h1 :: h2 :: rest2)
      | [h1] => utf8Encode '%' ++ charsToBytes [h1]
      | [] => utf8Encode '%'
    else utf8Encode c ++ charsToBytes rest
termination_by l => l.length
decreasing_by all_goals simp <;> omega

/-- Urlencoded decoding of a piece to a string. -/
def formDecode (cs : List Char) : List Char :=
  utf8Decode (charsToBytes cs)

/-- Parse one `name=value` piece of an urlencoded body: the name is
everything before the first `=`, the value everything after it (empty when
there is no `=`); both are then urldecoded. -/
def parsePiece (piece : List Char) : String × String :=
  (String.mk (formDecode (piece.takeWhile (fun c => c != '='))),
   String.mk (formDecode ((piece.dropWhile (fun c => c != '=')).tail)))

/-- The standard urlencoded parser: split the body on `&`, skip empty
pieces, split each piece at its first `=` (a piece without `=` is a key
with empty value), and decode key and value. -/
def parseForm (s : String) : List (String × String) :=
  ((splitSep '&' s.data).filter (fun p => !p.isEmpty)).map parsePiece

/-! ## Requests issued by the five operations -/

/-- `refresh`: `this.fetch('POST', 'refresh')`. -/
def OAuthAgentClient.refreshRequest (c : OAuthAgentClient) : Request :=
  c.fetchRequest "POST" "refresh" none

/-- `session`: `this.fetch('GET', 'session')`. -/
def OAuthAgentClient.sessionRequest (c : OAuthAgentClient) : Request :=
  c.fetchRequest "GET" "session" none

/-- `startLogin`: `this.fetch('POST', 'login/start', toUrlSearchParams(request?.extraAuthorizationParameters))`;
the body is the serialized `URLSearchParams`. -/
def OAuthAgentClient.startLoginRequest (c : OAuthAgentClient)
    (extraAuthorizationParameters : Option (List (String × String))) : Request :=
  c.fetchRequest "POST" "login/start"
    (some (serializeForm (toUrlSearchParams extraAuthorizationParameters)))

/-- `endLogin`: `this.fetch('POST', 'login/end', request.searchParams)`. -/
def OAuthAgentClient.endLoginRequest (c : OAuthAgentClient)
    (searchParams : List (String × String)) : Request :=
  c.fetchRequest "POST" "login/end" (some (serializeForm searchParams))

/-- `logout`: `this.fetch('POST', 'logout')`. -/
def OAuthAgentClient.logoutRequest (c : OAuthAgentClient) : Request :=
  c.fetchRequest "POST" "logout" none

/-! ## Theorems: page-load classification -/

/-- The JARM test of `isOAuthResponse` (`has('response') && length == 1`)
holds exactly when the query consists of a single parameter whose key is
`response`. -/
theorem hasParam_and_length_one_iff (params : QueryParams) :
    (hasParam params "response" = true ∧ params.length = 1) ↔
      ∃ v, params = [("response", v)] := by
  constructor
  · rintro ⟨hres, hlen⟩
    match params with
    | [p] =>
      obtain ⟨k, v⟩ := p
      simp only [hasParam, List.any_cons, List.any_nil, Bool.or_false, beq_iff_eq] at hres
      exact ⟨v, by simp [hres]⟩
  · rintro ⟨v, rfl⟩
    simp [hasParam]

/-- `isOAuthResponse` holds exactly when one of the three spec conditions
holds: `state` with `code`, a lone `response` parameter, or `state` with
`error`. -/
theorem isOAuthResponse_iff (params : QueryParams) :
    isOAuthResponse params = true ↔
      ((hasParam params "state" = true ∧ hasParam params "code" = true) ∨
       (∃ v, params = [("response", v)]) ∨
       (hasParam params "state" = true ∧ hasParam params "error" = true)) := by
  unfold isOAuthResponse
  simp only [Bool.or_eq_true, Bool.and_eq_true, beq_iff_eq]
  rw [hasParam_and_length_one_iff]
  tauto

/-- C1: for every page URL, `onPageLoad` delegates to `endLogin` iff the
query parameters contain both `state` and `code`, or consist of exactly one
parameter whose key is `response`, or contain both `state` and `error`; in
every other case it delegates to `session()`. -/
theorem onPageLoad_classification (params : QueryParams) :
    (onPageLoadTarget params = .endLoginPath ↔
      ((hasParam params "state" = true ∧ hasParam params "code" = true) ∨
       (∃ v, params = [("response", v)]) ∨
       (hasParam params "state" = true ∧ hasParam params "error" = true))) ∧
    (onPageLoadTarget params = .sessionPath ↔
      ¬ ((hasParam params "state" = true ∧ hasParam params "code" = true) ∨
         (∃ v, params = [("response", v)]) ∨
         (hasParam params "state" = true ∧ hasParam params "error" = true))) := by
  rw [← isOAuthResponse_iff]
  unfold onPageLoadTarget
  by_cases hb : isOAuthResponse params = true
  · simp [hb]
  · have hb' : isOAuthResponse params = false := by
      revert hb; cases isOAuthResponse params <;> simp
    simp [hb']

/-- C2: whenever more than one query parameter is present, the JARM
condition is false, so `onPageLoad` delegates to `session()` even when a
`response` parameter is present — unless the plain (`state`+`code`) or the
error (`state`+`error`) condition independently holds. -/
theorem onPageLoad_jarm_needs_single_param (params : QueryParams)
    (hres : hasParam params "response" = true) (hlen : 1 < params.length) :
    onPageLoadTarget params = .sessionPath ↔
      ¬ ((hasParam params "state" = true ∧ hasParam params "code" = true) ∨
         (hasParam params "state" = true ∧ hasParam params "error" = true)) := by
  have hns : ¬ ∃ v, params = [("response", v)] := by
    rintro ⟨v, rfl⟩
    simp at hlen
  have h := (onPageLoad_classification params).2
  rw [h]
  tauto

/-- C2 witness: `?response=eyjwt&state=foo` is classified to `session()`. -/
theorem onPageLoad_jarm_needs_single_param_witness :
    onPageLoadTarget [("response", "eyjwt"), ("state", "foo")] = .sessionPath :=
  (onPageLoad_jarm_needs_single_param [("response", "eyjwt"), ("state", "foo")]
    (by decide) (by decide)).mpr (by decide)

/-- C10: a query string whose entries (two or more) all have the key
`response` is delegated to `session()`: the JARM condition counts entries,
not distinct names, so a repeated `response` key fails it. -/
theorem onPageLoad_repeated_response_key (params : QueryParams)
    (hlen : 2 ≤ params.length) (hall : ∀ p ∈ params, p.1 = "response") :
    onPageLoadTarget params = .sessionPath := by
  have hstate : hasParam params "state" = false := by
    simp only [hasParam, List.any_eq_false]
    intro p hp
    simp [hall p hp]
  apply (onPageLoad_classification params).2.mpr
  rintro (⟨h1, _⟩ | ⟨v, rfl⟩ | ⟨h1, _⟩)
  · rw [hstate] at h1; exact Bool.false_ne_true h1
  · simp at hlen
  · rw [hstate] at h1; exact Bool.false_ne_true h1

/-- C10 witness: `?response=a&response=b` is classified to `session()`. -/
theorem onPageLoad_repeated_response_key_witness :
    onPageLoadTarget [("response", "a"), ("response", "b")] = .sessionPath :=
  onPageLoad_repeated_response_key [("response", "a"), ("response", "b")]
    (by decide) (by decide)

/-! ## Theorems: base-URL normalization and request shape -/

/-- Appending `"/"` makes `jsEndsWith · "/"` true. -/
theorem jsEndsWith_append_slash (s : String) : jsEndsWith (s ++ "/") "/" = true := by
  unfold jsEndsWith
  rw [String.data_append]
  simp [List.isSuffixOf, List.isPrefixOf]

/-- C4: the constructor normalizes the base URL to end in `/` , every
request's URL is the stored normalized base concatenated with the relative
path (the `fetch` method performs no further normalization), and the join
inserts exactly one `/` when the configured base lacks a trailing slash and
none when it has one. -/
theorem baseUrl_normalization (b method p : String) (content : Option String) :
    jsEndsWith (OAuthAgentClient.construct ⟨b⟩).oauthAgentBaseUrl "/" = true ∧
    ((OAuthAgentClient.construct ⟨b⟩).fetchRequest method p content).url =
      (OAuthAgentClient.construct ⟨b⟩).oauthAgentBaseUrl ++ p ∧
    (jsEndsWith b "/" = false →
      ((OAuthAgentClient.construct ⟨b⟩).fetchRequest method p content).url = b ++ "/" ++ p) ∧
    (jsEndsWith b "/" = true →
      ((OAuthAgentClient.construct ⟨b⟩).fetchRequest method p content).url = b ++ p) ∧
    (OAuthAgentClient.construct ⟨b⟩).sessionRequest.url =
      (OAuthAgentClient.construct ⟨b⟩).oauthAgentBaseUrl ++ "session" ∧
    ((OAuthAgentClient.construct ⟨b⟩).startLoginRequest none).url =
      (OAuthAgentClient.construct ⟨b⟩).oauthAgentBaseUrl ++ "login/start" := by
  by_cases hb : jsEndsWith b "/" = true
  · simp [OAuthAgentClient.construct, OAuthAgentClient.fetchRequest,
      OAuthAgentClient.sessionRequest, OAuthAgentClient.startLoginRequest, hb]
  · have hb' : jsEndsWith b "/" = false := by
      revert hb; cases jsEndsWith b "/" <;> simp
    simp [OAuthAgentClient.construct, OAuthAgentClient.fetchRequest,
      OAuthAgentClient.sessionRequest, OAuthAgentClient.startLoginRequest, hb',
      jsEndsWith_append_slash]

/-- C4 witness: base URL `https://example.com` (no trailing slash) targets
`https://example.com/session`. -/
theorem baseUrl_normalization_witness :
    ((OAuthAgentClient.construct ⟨"https://example.com"⟩).fetchRequest
        "GET" "session" none).url = "https://example.com/session" :=
  (baseUrl_normalization "https://example.com" "GET" "session" none).2.2.1 (by decide)

/-- C9: every request of every operation carries both the
`token-handler-version: 1` header and the `accept: application/json`
header, on body-less requests as well as on `login/start` and
`login/end`. -/
theorem version_header_always_sent (c : OAuthAgentClient)
    (extra : Option (List (String × String))) (searchParams : List (String × String)) :
    (("token-handler-version", "1") ∈ c.refreshRequest.headers ∧
      ("accept", "application/json") ∈ c.refreshRequest.headers) ∧
    (("token-handler-version", "1") ∈ c.sessionRequest.headers ∧
      ("accept", "application/json") ∈ c.sessionRequest.headers) ∧
    (("token-handler-version", "1") ∈ (c.startLoginRequest extra).headers ∧
      ("accept", "application/json") ∈ (c.startLoginRequest extra).headers) ∧
    (("token-handler-version", "1") ∈ (c.endLoginRequest searchParams).headers ∧
      ("accept", "application/json") ∈ (c.endLoginRequest searchParams).headers) ∧
    (("token-handler-version", "1") ∈ c.logoutRequest.headers ∧
      ("accept", "application/json") ∈ c.logoutRequest.headers) := by
  refine ⟨⟨?_, ?_⟩, ⟨?_, ?_⟩, ⟨?_, ?_⟩, ⟨?_, ?_⟩, ⟨?_, ?_⟩⟩ <;>
    simp [OAuthAgentClient.refreshRequest, OAuthAgentClient.sessionRequest,
      OAuthAgentClient.startLoginRequest, OAuthAgentClient.endLoginRequest,
      OAuthAgentClient.logoutRequest, OAuthAgentClient.fetchRequest, fetchHeaders]

/-! ## Theorems: error normalization -/

/-- C3 counterexample: on a non-JSON 500 response the thrown error's
`details` is the status text — it is not absent, contradicting the claim's
"with no details". -/
theorem error_nonjson_details_cex :
    fetchResult { status := 500, statusText := "Internal Server Error", contentTypeHeader := some "text/html", jsonBody := Json.obj [] } =
      .error { status := 500, code := some (.str "server_error"), details := some (.str "Internal Server Error") } ∧
    some (Json.str "Internal Server Error") ≠ (none : Option Json) :=
  ⟨rfl, by simp⟩

/-- C3 (amended): for every operation and every non-2xx response: with a
JSON content type the call rejects with a `RemoteError` carrying the HTTP
status, the payload's `error_code` and the payload's `detailed_error`;
otherwise it rejects with the HTTP status, the generic code
`server_error`, and the response's status text as details. -/
theorem error_normalization (r : HttpResponse) (h : r.ok = false) :
    (r.contentTypeHeader = some "application/json" →
      sessionResult r = .error { status := r.status, code := r.jsonBody.getField "error_code", details := r.jsonBody.getField "detailed_error" } ∧
      endLoginResult r = .error { status := r.status, code := r.jsonBody.getField "error_code", details := r.jsonBody.getField "detailed_error" } ∧
      refreshResult r = .error { status := r.status, code := r.jsonBody.getField "error_code", details := r.jsonBody.getField "detailed_error" } ∧
      logoutResult r = .error { status := r.status, code := r.jsonBody.getField "error_code", details := r.jsonBody.getField "detailed_error" } ∧
      startLoginResult r = .error { status := r.status, code := r.jsonBody.getField "error_code", details := r.jsonBody.getField "detailed_error" }) ∧
    (r.contentTypeHeader ≠ some "application/json" →
      sessionResult r = .error { status := r.status, code := some (.str "server_error"), details := some (.str r.statusText) } ∧
      endLoginResult r = .error { status := r.status, code := some (.str "server_error"), details := some (.str r.statusText) } ∧
      refreshResult r = .error { status := r.status, code := some (.str "server_error"), details := some (.str r.statusText) } ∧
      logoutResult r = .error { status := r.status, code := some (.str "server_error"), details := some (.str r.statusText) } ∧
      startLoginResult r = .error { status := r.status, code := some (.str "server_error"), details := some (.str r.statusText) }) := by
  constructor
  · intro hct
    have hf : fetchResult r = .error { status := r.status, code := r.jsonBody.getField "error_code", details := r.jsonBody.getField "detailed_error" } := by
      simp [fetchResult, h, hct]
    simp [sessionResult, endLoginResult, refreshResult, logoutResult, startLoginResult,
      Except.map, hf]
  · intro hct
    have hbeq : (r.contentTypeHeader == some "application/json") = false := by
      simp only [beq_eq_false_iff_ne, ne_eq]
      exact hct
    have hf : fetchResult r = .error { status := r.status, code := some (.str "server_error"), details := some (.str r.statusText) } := by
      simp [fetchResult, h, hbeq]
    simp [sessionResult, endLoginResult, refreshResult, logoutResult, startLoginResult,
      Except.map, hf]

/-- C3 witness: HTTP 400 with JSON body
`{error_code: "invalid_request", detailed_error: "bad param"}` rejects with
`RemoteError(400, invalid_request, bad param)`. -/
theorem error_normalization_witness :
    sessionResult { status := 400, statusText := "Bad Request", contentTypeHeader := some "application/json", jsonBody := Json.obj [("error_code", .str "invalid_request"), ("detailed_error", .str "bad param")] } =
      .error { status := 400, code := some (.str "invalid_request"), details := some (.str "bad param") } :=
  ((error_normalization { status := 400, statusText := "Bad Request", contentTypeHeader := some "application/json", jsonBody := Json.obj [("error_code", .str "invalid_request"), ("detailed_error", .str "bad param")] }
    (by decide)).1 rfl).1

/-! ## Theorems: success-response field mapping -/

/-- C5: on every 2xx JSON response, `endLogin` returns the pure field
rename of the wire payload (`is_logged_in ↦ isLoggedIn`,
`id_token_claims ↦ idTokenClaims` passed through unchanged,
`access_token_expires_in ↦ accessTokenExpiresIn`); in particular the
payload `{is_logged_in: true, id_token_claims: {sub: "x"},
access_token_expires_in: 300}` yields exactly the spec's scenario values. -/
theorem endLogin_field_rename (r : HttpResponse) (h : r.ok = true) :
    endLoginResult r = .ok
      { isLoggedIn := r.jsonBody.getField "is_logged_in"
        csrfToken := none
        idTokenClaims := r.jsonBody.getField "id_token_claims"
        accessTokenExpiresIn := r.jsonBody.getField "access_token_expires_in" } ∧
    endLoginResult { status := 200, statusText := "OK", contentTypeHeader := some "application/json", jsonBody := Json.obj [("is_logged_in", .bool true), ("id_token_claims", .obj [("sub", .str "x")]), ("access_token_expires_in", .num 300)] } =
      .ok { isLoggedIn := some (.bool true)
            csrfToken := none
            idTokenClaims := some (.obj [("sub", .str "x")])
            accessTokenExpiresIn := some (.num 300) } := by
  refine ⟨?_, rfl⟩
  simp [endLoginResult, fetchResult, Except.map, h, sessionResponseOfJson]

/-- C5 witness: the spec scenario payload, via the general rename
theorem. -/
theorem endLogin_field_rename_witness :
    endLoginResult { status := 200, statusText := "OK", contentTypeHeader := some "application/json", jsonBody := Json.obj [("is_logged_in", .bool true), ("id_token_claims", .obj [("sub", .str "x")]), ("access_token_expires_in", .num 300)] } =
      .ok { isLoggedIn := some (.bool true)
            csrfToken := none
            idTokenClaims := some (.obj [("sub", .str "x")])
            accessTokenExpiresIn := some (.num 300) } :=
  (endLogin_field_rename { status := 200, statusText := "OK", contentTypeHeader := some "application/json", jsonBody := Json.obj [("is_logged_in", .bool true), ("id_token_claims", .obj [("sub", .str "x")]), ("access_token_expires_in", .num 300)] } (by decide)).1

/-- C6: `refresh` issues a `POST` to the `refresh` path and, on every 2xx
response, returns a `RefreshResponse` whose `accessTokenExpiresIn` is the
payload's `access_token_expires_in` — absent when the payload lacks that
field. -/
theorem refresh_maps_expiry (c : OAuthAgentClient) (r : HttpResponse) (h : r.ok = true) :
    c.refreshRequest.method = "POST" ∧
    c.refreshRequest.url = c.oauthAgentBaseUrl ++ "refresh" ∧
    refreshResult r = .ok { accessTokenExpiresIn := r.jsonBody.getField "access_token_expires_in" } ∧
    (r.jsonBody.getField "access_token_expires_in" = none →
      refreshResult r = .ok { accessTokenExpiresIn := none }) := by
  refine ⟨rfl, rfl, ?_, ?_⟩
  · simp [refreshResult, fetchResult, Except.map, h, refreshResponseOfJson]
  · intro hnone
    simp [refreshResult, fetchResult, Except.map, h, refreshResponseOfJson, hnone]

/-- C6 witness: payload `{access_token_expires_in: 300}` on a 2xx response
yields `accessTokenExpiresIn = 300`. -/
theorem refresh_maps_expiry_witness :
    refreshResult { status := 200, statusText := "OK", contentTypeHeader := some "application/json", jsonBody := Json.obj [("access_token_expires_in", .num 300)] } =
      .ok { accessTokenExpiresIn := some (.num 300) } :=
  (refresh_maps_expiry { oauthAgentBaseUrl := "https://example.com/" }
    { status := 200, statusText := "OK", contentTypeHeader := some "application/json", jsonBody := Json.obj [("access_token_expires_in", .num 300)] } (by decide)).2.2.1

/-! ## Theorems: optional-field presence (C8) -/

/-- C8 counterexample: `refresh` against a non-JSON 502 response throws a
`RemoteError` whose optional `details` field is present (the status text)
even though no `detailed_error` field existed in any server payload. -/
theorem optional_fields_cex :
    refreshResult { status := 502, statusText := "Bad Gateway", contentTypeHeader := some "text/plain", jsonBody := Json.obj [] } =
      .error { status := 502, code := some (.str "server_error"), details := some (.str "Bad Gateway") } ∧
    Json.getField (Json.obj []) "detailed_error" = none :=
  ⟨rfl, rfl⟩

/-- C8 (amended): for every operation and every server payload, the
optional fields of the returned success objects (`idTokenClaims`,
`accessTokenExpiresIn`, `csrfToken`, `logoutUrl`) are present only when
the corresponding source field existed in the payload (`csrfToken` is
never present), and on JSON error responses `details` is present only when
`detailed_error` existed in the payload; on non-JSON error responses,
however, `details` is always present, holding the response's status
text. -/
theorem optional_fields_presence (p : Json) :
    ((sessionResponseOfJson p).idTokenClaims.isSome = true →
      (p.getField "id_token_claims").isSome = true) ∧
    ((sessionResponseOfJson p).accessTokenExpiresIn.isSome = true →
      (p.getField "access_token_expires_in").isSome = true) ∧
    (sessionResponseOfJson p).csrfToken = none ∧
    ((refreshResponseOfJson p).accessTokenExpiresIn.isSome = true →
      (p.getField "access_token_expires_in").isSome = true) ∧
    ((logoutResponseOfJson p).logoutUrl.isSome = true →
      (p.getField "logout_url").isSome = true) ∧
    ((startLoginResponseOfJson p).authorizationUrl.isSome = true →
      (p.getField "authorization_url").isSome = true) ∧
    (∀ r : HttpResponse, r.ok = false → r.contentTypeHeader = some "application/json" →
      ∀ e, fetchResult r = .error e →
        (e.details.isSome = true → (r.jsonBody.getField "detailed_error").isSome = true)) ∧
    (∀ r : HttpResponse, r.ok = false → r.contentTypeHeader ≠ some "application/json" →
      fetchResult r = .error { status := r.status, code := some (.str "server_error"), details := some (.str r.statusText) }) := by
  refine ⟨fun h => h, fun h => h, rfl, fun h => h, fun h => h, fun h => h, ?_, ?_⟩
  · intro r hok hct e hf
    have hf2 : fetchResult r = .error { status := r.status, code := r.jsonBody.getField "error_code", details := r.jsonBody.getField "detailed_error" } := by
      simp [fetchResult, hok, hct]
    rw [hf2] at hf
    cases hf
    exact fun h => h
  · intro r hok hct
    have hbeq : (r.contentTypeHeader == some "application/json") = false := by
      simp only [beq_eq_false_iff_ne, ne_eq]
      exact hct
    simp [fetchResult, hok, hbeq]

/-- C8 witness: on the empty payload every optional success field is
absent, via the presence theorem. -/
theorem optional_fields_presence_witness :
    (sessionResponseOfJson (Json.obj [])).csrfToken = none :=
  (optional_fields_presence (Json.obj [])).2.2.1

/-! ## Theorems: form-encoding round trip (C7) -/

/-- Every Unicode scalar value is below `0x110000`. -/
theorem char_toNat_lt_unicodeMax (c : Char) : c.toNat < 1114112 := by
  rcases c.valid with h | ⟨_, h2⟩
  · exact Nat.lt_trans h (by norm_num)
  · exact h2

/-- UTF-8 encoding produces bytes. -/
theorem utf8Encode_lt (c : Char) : ∀ b ∈ utf8Encode c, b < 256 := by
  intro b hb
  have hc := char_toNat_lt_unicodeMax c
  unfold utf8Encode at hb
  split_ifs at hb with h1 h2 h3
  · simp at hb; omega
  · simp at hb; rcases hb with rfl | rfl <;> omega
  · simp at hb; rcases hb with rfl | rfl | rfl <;> omega
  · simp at hb; rcases hb with rfl | rfl | rfl | rfl <;> omega

/-- UTF-8 decoding inverts UTF-8 encoding of one character, for any
continuation byte list and any remaining fuel. -/
theorem utf8DecodeAux_utf8Encode (c : Char) (bs : List Nat) (fuel : Nat) :
    utf8DecodeAux (fuel + 1) (utf8Encode c ++ bs) = c :: utf8DecodeAux fuel bs := by
  have hc := char_toNat_lt_unicodeMax c
  by_cases h1 : c.toNat < 0x80
  · rw [utf8Encode, if_pos h1]
    show utf8DecodeAux (fuel + 1) (c.toNat :: bs) = _
    cases bs with
    | nil => rw [utf8DecodeAux.eq_3, if_pos h1, Char.ofNat_toNat]
    | cons b1 bs1 => rw [utf8DecodeAux.eq_4, if_pos h1, Char.ofNat_toNat]
  · by_cases h2 : c.toNat < 0x800
    · rw [utf8Encode, if_neg h1, if_pos h2]
      show utf8DecodeAux (fuel + 1) ((0xC0 + c.toNat / 64) :: (0x80 + c.toNat % 64) :: bs) = _
      rw [utf8DecodeAux.eq_4, if_neg (by omega), if_pos (by omega)]
      have harg : (0xC0 + c.toNat / 64 - 192) * 64 + (0x80 + c.toNat % 64 - 128)
          = c.toNat := by omega
      rw [harg, Char.ofNat_toNat]
    · by_cases h3 : c.toNat < 0x10000
      · rw [utf8Encode, if_neg h1, if_neg h2, if_pos h3]
        show utf8DecodeAux (fuel + 1) ((0xE0 + c.toNat / 4096) :: (0x80 + c.toNat / 64 % 64)
            :: (0x80 + c.toNat % 64) :: bs) = _
        rw [utf8DecodeAux.eq_4, if_neg (by omega), if_neg (by omega), if_pos (by omega)]
        show Char.ofNat ((0xE0 + c.toNat / 4096 - 224) * 4096
            + (0x80 + c.toNat / 64 % 64 - 128) * 64 + (0x80 + c.toNat % 64 - 128))
            :: utf8DecodeAux fuel bs = _
        have harg : (0xE0 + c.toNat / 4096 - 224) * 4096
            + (0x80 + c.toNat / 64 % 64 - 128) * 64 + (0x80 + c.toNat % 64 - 128)
            = c.toNat := by omega
        rw [harg, Char.ofNat_toNat]
      · rw [utf8Encode, if_neg h1, if_neg h2, if_neg h3]
        show utf8DecodeAux (fuel + 1) ((0xF0 + c.toNat / 262144) :: (0x80 + c.toNat / 4096 % 64)
            :: (0x80 + c.toNat / 64 % 64) :: (0x80 + c.toNat % 64) :: bs) = _
        rw [utf8DecodeAux.eq_4, if_neg (by omega), if_neg (by omega), if_neg (by omega)]
        show Char.ofNat ((0xF0 + c.toNat / 262144 - 240) * 262144
            + (0x80 + c.toNat / 4096 % 64 - 128) * 4096
            + (0x80 + c.toNat / 64 % 64 - 128) * 64 + (0x80 + c.toNat % 64 - 128))
            :: utf8DecodeAux fuel bs = _
        have harg : (0xF0 + c.toNat / 262144 - 240) * 262144
            + (0x80 + c.toNat / 4096 % 64 - 128) * 4096
            + (0x80 + c.toNat / 64 % 64 - 128) * 64 + (0x80 + c.toNat % 64 - 128)
            = c.toNat := by omega
        rw [harg, Char.ofNat_toNat]

/-- UTF-8 encoding of a character is never empty. -/
theorem utf8Encode_length_pos (c : Char) : 1 ≤ (utf8Encode c).length := by
  unfold utf8Encode
  split_ifs <;> simp

/-- A character list is no longer than its UTF-8 encoding. -/
theorem length_le_utf8Encode_flatMap (s : List Char) :
    s.length ≤ (s.flatMap utf8Encode).length := by
  induction s with
  | nil => simp
  | cons c cs ih =>
    rw [List.flatMap_cons, List.length_cons, List.length_append]
    have := utf8Encode_length_pos c
    omega

/-- With enough fuel, UTF-8 decoding inverts UTF-8 encoding of a character
list. -/
theorem utf8DecodeAux_flatMap (s : List Char) (fuel : Nat) (h : s.length ≤ fuel) :
    utf8DecodeAux fuel (s.flatMap utf8Encode) = s := by
  induction s generalizing fuel with
  | nil =>
    rw [List.flatMap_nil]
    match fuel with
    | 0 => rfl
    | f + 1 => rfl
  | cons c cs ih =>
    match fuel, h with
    | f + 1, h =>
      rw [List.flatMap_cons, utf8DecodeAux_utf8Encode, ih f (by simpa using h)]

/-- UTF-8 decoding inverts UTF-8 encoding of a character list. -/
theorem utf8Decode_flatMap (s : List Char) :
    utf8Decode (s.flatMap utf8Encode) = s :=
  utf8DecodeAux_flatMap s _ (length_le_utf8Encode_flatMap s)

/-- `hexVal` recovers the value a `hexDigit` stands for. -/
theorem hexVal_of_hexDigit (n : Nat) (h : n < 16) : hexVal (hexDigit n) = some n := by
  interval_cases n <;> decide

/-- `hexDigit` never produces the structural characters of a form body. -/
theorem hexDigit_benign (n : Nat) : hexDigit n ≠ '&' ∧ hexDigit n ≠ '=' := by
  rcases Nat.lt_or_ge n 16 with h | h
  · interval_cases n <;> exact ⟨by decide, by decide⟩
  · rw [hexDigit, List.getD_eq_default]
    · exact ⟨by decide, by decide⟩
    · have hlen : ("0123456789ABCDEF".data).length = 16 := by decide
      omega

/-- A form-safe character is none of the characters the serializer and
parser give structural meaning. -/
theorem isFormSafe_char_ne (c : Char) (h : isFormSafe c = true) :
    c ≠ '&' ∧ c ≠ '=' ∧ c ≠ '+' ∧ c ≠ '%' := by
  refine ⟨?_, ?_, ?_, ?_⟩ <;> rintro rfl <;> exact absurd h (by decide)

/-- `charsToBytes` on an unescaped leading character. -/
theorem charsToBytes_cons (c : Char) (rest : List Char) (hp : c ≠ '+') (hpc : c ≠ '%') :
    charsToBytes (c :: rest) = utf8Encode c ++ charsToBytes rest := by
  match rest with
  | [] =>
    rw [charsToBytes.eq_4, if_neg hp, if_neg hpc, charsToBytes.eq_1]
  | [h1] => rw [charsToBytes.eq_3, if_neg hp, if_neg hpc]
  | h1 :: h2 :: t => rw [charsToBytes.eq_2, if_neg hp, if_neg hpc]

/-- `charsToBytes` on a leading `+`: one space byte. -/
theorem charsToBytes_plus (rest : List Char) :
    charsToBytes ('+' :: rest) = 32 :: charsToBytes rest := by
  match rest with
  | [] => rw [charsToBytes.eq_4, if_pos rfl]
  | [h1] => rw [charsToBytes.eq_3, if_pos rfl]
  | h1 :: h2 :: t => rw [charsToBytes.eq_2, if_pos rfl]

/-- `charsToBytes` on a percent-escape with two hex digits. -/
theorem charsToBytes_percent_triple (a b : Nat) (ha : a < 16) (hb : b < 16)
    (rest : List Char) :
    charsToBytes ('%' :: hexDigit a :: hexDigit b :: rest) = (a * 16 + b) :: charsToBytes rest := by
  rw [charsToBytes.eq_2, if_neg (by decide), if_pos rfl,
    hexVal_of_hexDigit a ha, hexVal_of_hexDigit b hb]

/-- `charsToBytes` undoes the percent-encoding of a byte list. -/
theorem charsToBytes_percent_flatMap (B : List Nat) (hB : ∀ b ∈ B, b < 256)
    (rest : List Char) :
    charsToBytes (B.flatMap percentEncodeByte ++ rest) = B ++ charsToBytes rest := by
  induction B with
  | nil => simp
  | cons b t ih =>
    rw [List.flatMap_cons, List.append_assoc, percentEncodeByte]
    show charsToBytes ('%' :: hexDigit (b / 16) :: hexDigit (b % 16)
        :: (t.flatMap percentEncodeByte ++ rest)) = _
    have hb : b < 256 := hB b (by simp)
    rw [charsToBytes_percent_triple (b / 16) (b % 16) (by omega) (by omega),
      ih (fun x hx => hB x (by simp [hx]))]
    have harg : b / 16 * 16 + b % 16 = b := by omega
    rw [harg, List.cons_append]

/-- `charsToBytes` undoes `encodeChar`, producing the character's UTF-8
bytes, for any continuation. -/
theorem charsToBytes_encodeChar (c : Char) (rest : List Char) :
    charsToBytes (encodeChar c ++ rest) = utf8Encode c ++ charsToBytes rest := by
  by_cases hsp : c = ' '
  · subst hsp
    rw [encodeChar, if_pos rfl]
    show charsToBytes ('+' :: rest) = _
    rw [charsToBytes_plus]
    rfl
  · by_cases hsafe : isFormSafe c = true
    · rw [encodeChar, if_neg hsp, if_pos hsafe]
      obtain ⟨-, -, hplus, hpct⟩ := isFormSafe_char_ne c hsafe
      show charsToBytes (c :: rest) = _
      rw [charsToBytes_cons c rest hplus hpct]
    · rw [encodeChar, if_neg hsp, if_neg hsafe]
      exact charsToBytes_percent_flatMap (utf8Encode c) (utf8Encode_lt c) rest

/-- `charsToBytes` turns a serialized string back into its UTF-8 bytes. -/
theorem charsToBytes_flatMap_encodeChar (l : List Char) :
    charsToBytes (l.flatMap encodeChar) = l.flatMap utf8Encode := by
  induction l with
  | nil => simp [charsToBytes.eq_1]
  | cons c cs ih => rw [List.flatMap_cons, charsToBytes_encodeChar, ih, List.flatMap_cons]

/-- Urldecoding inverts the urlencoded serialization of a string. -/
theorem formDecode_serializeStr (s : String) : formDecode (serializeStr s) = s.data := by
  rw [formDecode, serializeStr, charsToBytes_flatMap_encodeChar, utf8Decode_flatMap]

/-- Every character the serializer emits for string content is neither `&`
nor `=`. -/
theorem encodeChar_benign (c : Char) : ∀ x ∈ encodeChar c, x ≠ '&' ∧ x ≠ '=' := by
  intro x hx
  unfold encodeChar at hx
  split_ifs at hx with h1 h2
  · simp only [List.mem_singleton] at hx
    subst hx
    exact ⟨by decide, by decide⟩
  · have hxc : x = c := by simpa using hx
    rw [hxc]
    exact ⟨(isFormSafe_char_ne c h2).1, (isFormSafe_char_ne c h2).2.1⟩
  · rw [List.mem_flatMap] at hx
    obtain ⟨b, -, hxb⟩ := hx
    rw [percentEncodeByte] at hxb
    simp only [List.mem_cons, List.mem_singleton, List.not_mem_nil, or_false] at hxb
    rcases hxb with rfl | rfl | rfl
    · exact ⟨by decide, by decide⟩
    · exact hexDigit_benign _
    · exact hexDigit_benign _

/-- Every character of a serialized string is neither `&` nor `=`. -/
theorem serializeStr_benign (s : String) : ∀ x ∈ serializeStr s, x ≠ '&' ∧ x ≠ '=' := by
  intro x hx
  rw [serializeStr, List.mem_flatMap] at hx
  obtain ⟨c, -, hc⟩ := hx
  exact encodeChar_benign c x hc

/-- Splitting a separator-free list is the identity (one piece). -/
theorem splitSep_of_not_mem (sep : Char) (xs : List Char) (h : sep ∉ xs) :
    splitSep sep xs = [xs] := by
  induction xs with
  | nil => rfl
  | cons c cs ih =>
    have hc : ¬ c = sep := fun e => h (by simp [e])
    have hcs : sep ∉ cs := fun m => h (List.mem_cons_of_mem _ m)
    rw [splitSep, if_neg hc, ih hcs]

/-- Splitting peels off a separator-free prefix before a separator. -/
theorem splitSep_append (sep : Char) (xs ys : List Char) (h : sep ∉ xs) :
    splitSep sep (xs ++ sep :: ys) = xs :: splitSep sep ys := by
  induction xs with
  | nil =>
    show splitSep sep (sep :: ys) = _
    rw [splitSep, if_pos rfl]
  | cons c cs ih =>
    have hc : ¬ c = sep := fun e => h (by simp [e])
    have hcs : sep ∉ cs := fun m => h (List.mem_cons_of_mem _ m)
    show splitSep sep (c :: (cs ++ sep :: ys)) = _
    rw [splitSep, if_neg hc, ih hcs]

/-- Splitting inverts joining for a nonempty list of separator-free
pieces. -/
theorem splitSep_joinSep (sep : Char) (p : List Char) (ps : List (List Char))
    (h : ∀ q ∈ p :: ps, sep ∉ q) :
    splitSep sep (joinSep sep (p :: ps)) = p :: ps := by
  induction ps generalizing p with
  | nil => exact splitSep_of_not_mem sep p (h p (by simp))
  | cons q t ih =>
    rw [joinSep, splitSep_append sep p _ (h p (by simp))]
    rw [ih q (fun x hx => h x (by simp at hx ⊢; tauto))]

/-- `takeWhile` stops exactly at the first failing element. -/
theorem takeWhile_append_of_forall (p : Char → Bool) (xs : List Char) (y : Char)
    (ys : List Char) (hxs : ∀ x ∈ xs, p x = true) (hy : p y = false) :
    (xs ++ y :: ys).takeWhile p = xs := by
  induction xs with
  | nil => simp [List.takeWhile_cons, hy]
  | cons a as ih =>
    rw [List.cons_append, List.takeWhile_cons, hxs a (by simp), if_pos rfl,
      ih (fun x hx => hxs x (by simp [hx]))]

/-- `dropWhile` drops exactly the longest satisfying prefix. -/
theorem dropWhile_append_of_forall (p : Char → Bool) (xs : List Char) (y : Char)
    (ys : List Char) (hxs : ∀ x ∈ xs, p x = true) (hy : p y = false) :
    (xs ++ y :: ys).dropWhile p = y :: ys := by
  induction xs with
  | nil => simp [List.dropWhile_cons, hy]
  | cons a as ih =>
    rw [List.cons_append, List.dropWhile_cons, hxs a (by simp), if_pos rfl]
    exact ih (fun x hx => hxs x (by simp [hx]))

/-- Parsing one piece inverts serializing one key/value pair. -/
theorem parsePiece_serializePair (kv : String × String) :
    parsePiece (serializePair kv) = kv := by
  obtain ⟨k, v⟩ := kv
  rw [serializePair, parsePiece]
  have hne : ∀ x ∈ serializeStr k, (x != '=') = true := by
    intro x hx
    simpa using (serializeStr_benign k x hx).2
  have heq : (('=' : Char) != '=') = false := by decide
  rw [takeWhile_append_of_forall _ _ _ _ hne heq,
    dropWhile_append_of_forall _ _ _ _ hne heq]
  show (String.mk (formDecode (serializeStr k)),
    String.mk (formDecode (serializeStr v))) = (k, v)
  rw [formDecode_serializeStr, formDecode_serializeStr]

/-- Parsing inverts serializing an entry list. -/
theorem parseForm_serializeForm (ps : List (String × String)) :
    parseForm (serializeForm ps) = ps := by
  cases ps with
  | nil => rfl
  | cons p t =>
    rw [serializeForm, parseForm]
    show ((splitSep '&' (joinSep '&' ((p :: t).map serializePair))).filter
        (fun q => !q.isEmpty)).map parsePiece = p :: t
    rw [List.map_cons, splitSep_joinSep '&' (serializePair p) (t.map serializePair)]
    · have hfil : ((serializePair p :: t.map serializePair).filter
          (fun q => !q.isEmpty)) = serializePair p :: t.map serializePair := by
        rw [List.filter_eq_self]
        intro a ha
        have hane : a ≠ [] := by
          simp only [List.mem_cons, List.mem_map] at ha
          rcases ha with rfl | ⟨q, -, rfl⟩ <;>
            · rw [serializePair]
              intro hcon
              exact absurd (congrArg List.length hcon) (by simp)
        simpa [List.isEmpty_iff]
      rw [hfil, ← List.map_cons, List.map_map]
      have : (parsePiece ∘ serializePair) = id := by
        funext kv
        exact parsePiece_serializePair kv
      rw [this, List.map_id]
    · intro q hq
      simp only [List.mem_cons, List.mem_map] at hq
      intro hamp
      rcases hq with rfl | ⟨r, -, rfl⟩ <;>
      · rw [serializePair] at hamp
        rcases List.mem_append.mp hamp with h | h
        · exact (serializeStr_benign _ _ h).1 rfl
        · rcases List.mem_cons.mp h with h | h
          · exact absurd h.symm (by decide)
          · exact (serializeStr_benign _ _ h).1 rfl

/-- C7: decoding the urlencoded body that `startLogin` produces from an
extra-parameters mapping yields exactly the same key/value pairs (here:
the very same list, which implies set equality independent of order); an
absent or empty mapping produces an empty body. -/
theorem startLogin_body_roundtrip (c : OAuthAgentClient)
    (data : Option (List (String × String))) :
    (c.startLoginRequest data).body = some (serializeForm (toUrlSearchParams data)) ∧
    parseForm (serializeForm (toUrlSearchParams data)) = toUrlSearchParams data ∧
    serializeForm (toUrlSearchParams none) = "" ∧
    serializeForm [] = "" :=
  ⟨rfl, parseForm_serializeForm (toUrlSearchParams data), rfl, rfl⟩

end TokenHandler
